import Mathlib

/-!
# Verification of the timestamp-resolution core of FB_link_date_pull

This file gives a shallow embedding of the timestamp-resolution logic of the
repository (the functions `parseLooseDate`, `normalizeToISO`,
`extractPostDateISO` of `src/utils/postTime.js`, and the timestamp-extraction
branch of `extractPostDetails` in `src/main.js`), together with proofs of the
properties claimed by the specification.

Conventions of the embedding:

* A JavaScript `Date` is its time value: an integer count of milliseconds since
  the Unix epoch (`Int`).  `toISOString` is an injective rendering of that
  value, so instants are compared as their millisecond values.
* The host timezone is a fixed offset of `off` minutes east of UTC (the repo's
  tests use `+08:00`, i.e. `off = 480`; the spec declares timezone-database
  handling a non-goal).  Local civil time is obtained from the proleptic
  Gregorian calendar, as specified by ECMAScript's `LocalTime`/`MakeDay`/
  `MakeTime` operations; the civil-day conversions below implement them and
  are *verified* here (`daysFromCivil_cfd`, `msFromFields_localFields`).
* The generic text parser `new Date(string)` / `Date.parse(string)` used by
  the code's fallback branches is implementation-defined in JS; it is passed
  in as an explicit parameter `dp : String → Option Int` (`none` models an
  invalid date, i.e. `NaN`).  All theorems below hold for every `dp`.
-/

namespace FBPull

/-! ## Gregorian civil-day arithmetic (ECMAScript `MakeDay` and its inverse)

`daysFromCivil y m d` is the number of days from 1970-01-01 to the civil date
`(y, m, d)` (month `1..12`; out-of-range day numbers roll over linearly,
exactly as ECMAScript's `MakeDay` does).  `cfdY/cfdM/cfdD` decompose a day
number back into civil year/month/day.  Both use the standard era-based
algorithm; the inversion is proved below, not assumed. -/

def daysFromCivil (y m d : Int) : Int :=
  let y' := if m ≤ 2 then y - 1 else y
  let era := y' / 400
  let yoe := y' - era * 400
  let doy := (153 * (m + (if 2 < m then -3 else 9)) + 2) / 5 + d - 1
  let doe := yoe * 365 + yoe / 4 - yoe / 100 + doy
  era * 146097 + doe - 719468

/-- Era (block of 400 civil years) of a day number. -/
def cfdEra (z : Int) : Int := (z + 719468) / 146097

/-- Day-of-era, in `[0, 146097)`. -/
def cfdDoe (z : Int) : Int := z + 719468 - cfdEra z * 146097

/-- Year-of-era, in `[0, 400)` (proved in `cfdYoe_facts`). -/
def cfdYoe (z : Int) : Int :=
  (cfdDoe z - cfdDoe z / 1460 + cfdDoe z / 36524 - cfdDoe z / 146096) / 365

/-- Day-of-(March-based)-year, in `[0, 365]`. -/
def cfdDoy (z : Int) : Int :=
  cfdDoe z - (365 * cfdYoe z + (cfdYoe z) / 4 - (cfdYoe z) / 100)

/-- March-based month index, in `[0, 11]`. -/
def cfdMp (z : Int) : Int := (5 * cfdDoy z + 2) / 153

/-- Civil day-of-month of a day number. -/
def cfdD (z : Int) : Int := cfdDoy z - (153 * cfdMp z + 2) / 5 + 1

/-- Civil month (1..12) of a day number. -/
def cfdM (z : Int) : Int := cfdMp z + (if cfdMp z < 10 then 3 else -9)

/-- Civil year of a day number. -/
def cfdY (z : Int) : Int :=
  cfdYoe z + cfdEra z * 400 + (if cfdM z ≤ 2 then 1 else 0)

/-! ### The finite core of the inversion proof

The only part of the calendar inversion that is not plain linear arithmetic is
the correctness of the year-of-era extraction formula.  It is reduced to a
400-point endpoint check (one per year-of-era) plus monotonicity of the
dividend `gN`; the 400 points are scanned by a fueled divide-and-conquer
boolean computation. -/

/-- Nat version of the year-of-era extractor's dividend. -/
def gN (a : Nat) : Nat := a - a / 1460 + a / 36524 - a / 146096

/-- Nat version of `yoe ↦ first day-of-era of that year-of-era`. -/
def ydN (y : Nat) : Nat := 365 * y + y / 4 - y / 100

/-- Endpoint check for one year-of-era block `[ydN r, ydN (r+1))`. -/
def blockCheck (r : Nat) : Bool :=
  decide (gN (ydN r) = 365 * r) && decide (gN (ydN (r + 1) - 1) ≤ 365 * r + 364) &&
    decide (ydN r + 365 ≤ ydN (r + 1)) && decide (ydN (r + 1) ≤ ydN r + 366)

/-- Fueled divide-and-conquer scan of `blockCheck` over `[lo, lo + n)`. -/
def blockScan : Nat → Nat → Nat → Bool
  | 0, _, _ => false
  | _ + 1, _, 0 => true
  | _ + 1, lo, 1 => blockCheck lo
  | fuel + 1, lo, n + 2 =>
      blockScan fuel lo ((n + 2) / 2) &&
      blockScan fuel (lo + (n + 2) / 2) (n + 2 - (n + 2) / 2)

theorem blockScan_sound :
    ∀ fuel lo n, blockScan fuel lo n = true → ∀ i, i < n → blockCheck (lo + i) = true := by
  intro fuel
  induction fuel with
  | zero => intro lo n h; simp [blockScan] at h
  | succ fuel ih =>
    intro lo n h i hi
    match n, hi with
    | 1, _ =>
      have : i = 0 := by omega
      subst this
      simpa using h
    | (n + 2), _ =>
      rw [blockScan, Bool.and_eq_true] at h
      by_cases hc : i < (n + 2) / 2
      · exact ih lo ((n + 2) / 2) h.1 i hc
      · have h2 := ih (lo + (n + 2) / 2) ((n + 2) - (n + 2) / 2) h.2
          (i - (n + 2) / 2) (by omega)
        have : lo + (n + 2) / 2 + (i - (n + 2) / 2) = lo + i := by omega
        rwa [this] at h2

set_option maxHeartbeats 1600000 in
theorem blockScan_all : blockScan 12 0 400 = true := by rfl

theorem blockCheck_all : ∀ r, r < 400 → blockCheck r = true := by
  intro r hr
  simpa using blockScan_sound 12 0 400 blockScan_all r hr

theorem gN_step (a : Nat) : gN a ≤ gN (a + 1) := by unfold gN; omega

theorem gN_mono {a b : Nat} (h : a ≤ b) : gN a ≤ gN b := by
  induction b with
  | zero => simp_all
  | succ b ih =>
    rcases Nat.lt_or_ge a (b + 1) with h' | h'
    · exact le_trans (ih (by omega)) (gN_step b)
    · have : a = b + 1 := by omega
      simp [this]

/-- Every day-of-era below `ydN r` lies in some year block `[ydN j, ydN (j+1))`. -/
theorem block_cover : ∀ r doe, doe < ydN r → ∃ j, j < r ∧ ydN j ≤ doe ∧ doe < ydN (j + 1) := by
  intro r
  induction r with
  | zero => intro doe h; simp [ydN] at h
  | succ r ih =>
    intro doe h
    rcases Nat.lt_or_ge doe (ydN r) with h' | h'
    · obtain ⟨j, hj, hj1, hj2⟩ := ih doe h'
      exact ⟨j, by omega, hj1, hj2⟩
    · exact ⟨r, by omega, h', h⟩

/-- Correctness of the year-of-era extraction over one whole 400-year era. -/
theorem yoeFactsN (doe : Nat) (hdoe : doe < 146097) :
    gN doe / 365 ≤ 399 ∧ ydN (gN doe / 365) ≤ doe ∧ doe - ydN (gN doe / 365) ≤ 365 := by
  rcases Nat.lt_or_ge doe 146096 with hlt | hge
  · have hcover : doe < ydN 400 := by
      have : ydN 400 = 146096 := by decide
      omega
    obtain ⟨j, hj, hj1, hj2⟩ := block_cover 400 doe hcover
    have hb := blockCheck_all j hj
    unfold blockCheck at hb
    rw [Bool.and_eq_true, Bool.and_eq_true, Bool.and_eq_true] at hb
    obtain ⟨⟨⟨c1, c2⟩, c3⟩, c4⟩ := hb
    rw [decide_eq_true_eq] at c1 c2 c3 c4
    have hlo : 365 * j ≤ gN doe := by
      calc 365 * j = gN (ydN j) := c1.symm
        _ ≤ gN doe := gN_mono hj1
    have hhi : gN doe ≤ 365 * j + 364 := by
      calc gN doe ≤ gN (ydN (j + 1) - 1) := gN_mono (by omega)
        _ ≤ 365 * j + 364 := c2
    have hdiv : gN doe / 365 = j := by omega
    rw [hdiv]
    omega
  · have hd : doe = 146096 := by omega
    subst hd
    refine ⟨by decide, by decide, by decide⟩

/-- The year-of-era bounds, transported to `Int` (hypothesis-style statement so
that it can be instantiated with the `cfd` decomposition). -/
theorem yoeBounds (doe y : Int) (h0 : 0 ≤ doe) (h1 : doe < 146097)
    (hy : y = (doe - doe / 1460 + doe / 36524 - doe / 146096) / 365) :
    0 ≤ y ∧ y ≤ 399 ∧ 365 * y + y / 4 - y / 100 ≤ doe ∧
      doe - (365 * y + y / 4 - y / 100) ≤ 365 := by
  obtain ⟨n, hn⟩ : ∃ n : Nat, doe = (n : Int) := ⟨doe.toNat, by omega⟩
  obtain ⟨f1, f2, f3⟩ := yoeFactsN n (by omega)
  have hgN : ((gN n : Nat) : Int) = doe - doe / 1460 + doe / 36524 - doe / 146096 := by
    unfold gN; omega
  have hq : y = ((gN n / 365 : Nat) : Int) := by
    have hc : ((gN n / 365 : Nat) : Int) = ((gN n : Nat) : Int) / 365 := by omega
    rw [hy, hc, hgN]
  have hyd : ((ydN (gN n / 365) : Nat) : Int) = 365 * y + y / 4 - y / 100 := by
    unfold ydN
    rw [hq]
    omega
  refine ⟨by rw [hq]; omega, by rw [hq]; omega, ?_, ?_⟩
  · rw [← hyd]; omega
  · rw [← hyd]; omega

theorem cfdYoe_facts (z : Int) :
    0 ≤ cfdYoe z ∧ cfdYoe z ≤ 399 ∧
      365 * cfdYoe z + cfdYoe z / 4 - cfdYoe z / 100 ≤ cfdDoe z ∧
      cfdDoe z - (365 * cfdYoe z + cfdYoe z / 4 - cfdYoe z / 100) ≤ 365 := by
  have hdoe0 : 0 ≤ cfdDoe z := by unfold cfdDoe cfdEra; omega
  have hdoe1 : cfdDoe z < 146097 := by unfold cfdDoe cfdEra; omega
  exact yoeBounds (cfdDoe z) (cfdYoe z) hdoe0 hdoe1 rfl

/-! ### Reassembly -/

/-- Reassembly, March..December branch (`m = mp + 3`). -/
theorem dfc_march (z era yoe doy mp : Int) (hy0 : 0 ≤ yoe) (hy399 : yoe ≤ 399)
    (hdoy : doy = z + 719468 - era * 146097 - (365 * yoe + yoe / 4 - yoe / 100))
    (hdoy0 : 0 ≤ doy) (hdoy1 : doy ≤ 365)
    (hmp : mp = (5 * doy + 2) / 153) (hten : mp < 10) :
    daysFromCivil (yoe + era * 400 + 0) (mp + 3) (doy - (153 * mp + 2) / 5 + 1) = z := by
  simp only [daysFromCivil]
  have hm2 : ¬ (mp + 3 ≤ 2) := by omega
  have hm2' : (2 : Int) < mp + 3 := by omega
  simp only [if_neg hm2, if_pos hm2']
  have hg : (yoe + era * 400 + 0) / 400 = era := by omega
  rw [hg]
  have hy : yoe + era * 400 + 0 - era * 400 = yoe := by ring
  rw [hy]
  have hk : 153 * (mp + 3 + -3) + 2 = 153 * mp + 2 := by ring
  rw [hk]
  omega

/-- Reassembly, January..February branch (`m = mp - 9`, civil year shifts). -/
theorem dfc_jan (z era yoe doy mp : Int) (hy0 : 0 ≤ yoe) (hy399 : yoe ≤ 399)
    (hdoy : doy = z + 719468 - era * 146097 - (365 * yoe + yoe / 4 - yoe / 100))
    (hdoy0 : 0 ≤ doy) (hdoy1 : doy ≤ 365)
    (hmp : mp = (5 * doy + 2) / 153) (hten : 10 ≤ mp) :
    daysFromCivil (yoe + era * 400 + 1) (mp + -9) (doy - (153 * mp + 2) / 5 + 1) = z := by
  simp only [daysFromCivil]
  have hm2 : mp + -9 ≤ 2 := by omega
  have hm2' : ¬ ((2 : Int) < mp + -9) := by omega
  simp only [if_pos hm2, if_neg hm2']
  have hg : (yoe + era * 400 + 1 - 1) / 400 = era := by omega
  rw [hg]
  have hy : yoe + era * 400 + 1 - 1 - era * 400 = yoe := by ring
  rw [hy]
  have hk : 153 * (mp + -9 + 9) + 2 = 153 * mp + 2 := by ring
  rw [hk]
  omega

/-- Key inversion: re-encoding the civil decomposition of a day number gives
back the day number.  This certifies the civil-date algorithms against each
other over all of `Int`. -/
theorem daysFromCivil_cfd (z : Int) : daysFromCivil (cfdY z) (cfdM z) (cfdD z) = z := by
  obtain ⟨hy0, hy399, hlo, hhi⟩ := cfdYoe_facts z
  have hdoy0 : 0 ≤ cfdDoy z := by unfold cfdDoy; omega
  have hdoy1 : cfdDoy z ≤ 365 := by unfold cfdDoy; omega
  have hmp0 : 0 ≤ cfdMp z := by unfold cfdMp; omega
  have hmp11 : cfdMp z ≤ 11 := by unfold cfdMp; omega
  have hdoyE : cfdDoy z =
      z + 719468 - cfdEra z * 146097 - (365 * cfdYoe z + cfdYoe z / 4 - cfdYoe z / 100) := rfl
  by_cases hten : cfdMp z < 10
  · have hM : cfdM z = cfdMp z + 3 := by unfold cfdM; rw [if_pos hten]
    have hle : ¬ (cfdM z ≤ 2) := by rw [hM]; omega
    have hY : cfdY z = cfdYoe z + cfdEra z * 400 + 0 := by unfold cfdY; rw [if_neg hle]
    have hD : cfdD z = cfdDoy z - (153 * cfdMp z + 2) / 5 + 1 := rfl
    rw [hY, hM, hD]
    exact dfc_march z (cfdEra z) (cfdYoe z) (cfdDoy z) (cfdMp z)
      hy0 hy399 hdoyE hdoy0 hdoy1 rfl hten
  · have hM : cfdM z = cfdMp z + -9 := by unfold cfdM; rw [if_neg hten]
    have hle : cfdM z ≤ 2 := by rw [hM]; omega
    have hY : cfdY z = cfdYoe z + cfdEra z * 400 + 1 := by unfold cfdY; rw [if_pos hle]
    have hD : cfdD z = cfdDoy z - (153 * cfdMp z + 2) / 5 + 1 := rfl
    rw [hY, hM, hD]
    exact dfc_jan z (cfdEra z) (cfdYoe z) (cfdDoy z) (cfdMp z)
      hy0 hy399 hdoyE hdoy0 hdoy1 rfl (by omega)

/-! ## Local civil time (ECMAScript `LocalTime` field extraction and `MakeDate`) -/

/-- The local civil fields of an instant: year, month (1..12), day-of-month,
hour, minute, second, millisecond. -/
structure Fields where
  y : Int
  mo : Int
  d : Int
  h : Int
  mi : Int
  s : Int
  milli : Int
deriving DecidableEq

/-- Local day number of an instant under offset `off` (minutes east of UTC). -/
def localDays (off ms : Int) : Int := (ms + off * 60000) / 86400000

/-- Local time-of-day in milliseconds, in `[0, 86400000)`. -/
def localTod (off ms : Int) : Int := (ms + off * 60000) % 86400000

/-- ECMAScript local-field extraction (`YearFromTime`, `MonthFromTime`, ...,
`msFromTime` composed with `LocalTime`) for a fixed-offset timezone. -/
def localFields (off ms : Int) : Fields :=
  ⟨cfdY (localDays off ms), cfdM (localDays off ms), cfdD (localDays off ms),
    localTod off ms / 3600000, localTod off ms % 3600000 / 60000,
    localTod off ms % 60000 / 1000, localTod off ms % 1000⟩

/-- ECMAScript `UTC (MakeDate (MakeDay y (mo-1) d) (MakeTime h mi s milli))`
for a fixed-offset timezone: recompose an instant from local civil fields.
Out-of-range fields roll over linearly, exactly as in ECMAScript. -/
def msFromFields (off : Int) (f : Fields) : Int :=
  daysFromCivil f.y f.mo f.d * 86400000 + f.h * 3600000 + f.mi * 60000 +
    f.s * 1000 + f.milli - off * 60000

/-- Round trip: extracting the local fields of an instant and recomposing them
gives back the instant.  (This is the workhorse identity behind all `get*`/
`set*` reasoning below.) -/
theorem msFromFields_localFields (off ms : Int) :
    msFromFields off (localFields off ms) = ms := by
  unfold msFromFields localFields
  dsimp only
  have hinv := daysFromCivil_cfd (localDays off ms)
  unfold localDays localTod at *
  omega

/-- The extracted local fields are in their civil ranges. -/
theorem localFields_bounds (off ms : Int) :
    1 ≤ (localFields off ms).mo ∧ (localFields off ms).mo ≤ 12 ∧
    1 ≤ (localFields off ms).d ∧ (localFields off ms).d ≤ 31 ∧
    0 ≤ (localFields off ms).h ∧ (localFields off ms).h ≤ 23 ∧
    0 ≤ (localFields off ms).mi ∧ (localFields off ms).mi ≤ 59 ∧
    0 ≤ (localFields off ms).s ∧ (localFields off ms).s ≤ 59 ∧
    0 ≤ (localFields off ms).milli ∧ (localFields off ms).milli ≤ 999 := by
  obtain ⟨hy0, hy399, hlo, hhi⟩ := cfdYoe_facts (localDays off ms)
  have hdoy0 : 0 ≤ cfdDoy (localDays off ms) := by unfold cfdDoy; omega
  have hdoy1 : cfdDoy (localDays off ms) ≤ 365 := by unfold cfdDoy; omega
  have hmp0 : 0 ≤ cfdMp (localDays off ms) := by unfold cfdMp; omega
  have hmp11 : cfdMp (localDays off ms) ≤ 11 := by unfold cfdMp; omega
  have hdd : 1 ≤ cfdD (localDays off ms) ∧ cfdD (localDays off ms) ≤ 31 := by
    unfold cfdD
    constructor
    · unfold cfdMp; omega
    · unfold cfdMp; omega
  have hmm : 1 ≤ cfdM (localDays off ms) ∧ cfdM (localDays off ms) ≤ 12 := by
    unfold cfdM
    by_cases hten : cfdMp (localDays off ms) < 10
    · rw [if_pos hten]; omega
    · rw [if_neg hten]; omega
  unfold localFields
  dsimp only
  refine ⟨hmm.1, hmm.2, hdd.1, hdd.2, ?_, ?_, ?_, ?_, ?_, ?_, ?_, ?_⟩ <;>
    · unfold localTod; omega

/-- `daysFromCivil` is linear in the day argument (ECMAScript's `MakeDay`
rolls out-of-range day numbers over linearly). -/
theorem daysFromCivil_day (y m d k : Int) :
    daysFromCivil y m (d + k) = daysFromCivil y m d + k := by
  simp only [daysFromCivil]
  split_ifs <;> omega

/-- January 1 is the earliest `daysFromCivil` value of a civil year, over the
civil field ranges. -/
theorem dfc_jan1_le (y m d : Int) (hm1 : 1 ≤ m) (hm2 : m ≤ 12) (hd1 : 1 ≤ d) (hd2 : d ≤ 31) :
    daysFromCivil y 1 1 ≤ daysFromCivil y m d := by
  simp only [daysFromCivil]
  split_ifs <;> omega

/-- Any civil date of the previous year is strictly before January 1 of the
given year, over the civil field ranges. -/
theorem dfc_prev_year_lt (y m d : Int) (hm1 : 1 ≤ m) (hm2 : m ≤ 12) (hd1 : 1 ≤ d) (hd2 : d ≤ 31) :
    daysFromCivil (y - 1) m d < daysFromCivil y 1 1 := by
  simp only [daysFromCivil]
  split_ifs <;> omega

/-- Variant of `daysFromCivil_day` for subtracted day counts. -/
theorem daysFromCivil_day_sub (y m d k : Int) :
    daysFromCivil y m (d - k) = daysFromCivil y m d - k := by
  have h := daysFromCivil_day y m (d - k) k
  have e : d - k + k = d := by ring
  rw [e] at h
  omega

/-! ## The JavaScript `Date` operations used by the source

`dt.getX()` / `dt.setX(...)` pairs, embedded through the verified local-field
conversion.  `jsSetHours1` is the single-argument form `setHours(h)` (keeps
minutes/seconds/milliseconds); `jsSetHours4` is `setHours(h, mi, s, milli)`;
`jsSetMonthDay` is `setMonth(mon0, d)` with a 0-based month index. -/

def jsGetDate (off ms : Int) : Int := (localFields off ms).d

def jsGetHours (off ms : Int) : Int := (localFields off ms).h

def jsGetMinutes (off ms : Int) : Int := (localFields off ms).mi

def jsSetMinutes (off ms v : Int) : Int :=
  msFromFields off ⟨(localFields off ms).y, (localFields off ms).mo, (localFields off ms).d,
    (localFields off ms).h, v, (localFields off ms).s, (localFields off ms).milli⟩

def jsSetHours1 (off ms v : Int) : Int :=
  msFromFields off ⟨(localFields off ms).y, (localFields off ms).mo, (localFields off ms).d,
    v, (localFields off ms).mi, (localFields off ms).s, (localFields off ms).milli⟩

def jsSetDate (off ms v : Int) : Int :=
  msFromFields off ⟨(localFields off ms).y, (localFields off ms).mo, v,
    (localFields off ms).h, (localFields off ms).mi, (localFields off ms).s,
    (localFields off ms).milli⟩

def jsSetHours4 (off ms h mi s milli : Int) : Int :=
  msFromFields off ⟨(localFields off ms).y, (localFields off ms).mo, (localFields off ms).d,
    h, mi, s, milli⟩

def jsSetMonthDay (off ms mon0 d : Int) : Int :=
  msFromFields off ⟨(localFields off ms).y, mon0 + 1, d,
    (localFields off ms).h, (localFields off ms).mi, (localFields off ms).s,
    (localFields off ms).milli⟩

/-- `dt.setMinutes(dt.getMinutes() - n)` subtracts exactly `n` minutes. -/
theorem jsSetMinutes_sub (off ms n : Int) :
    jsSetMinutes off ms (jsGetMinutes off ms - n) = ms - n * 60000 := by
  have h := msFromFields_localFields off ms
  unfold jsSetMinutes jsGetMinutes
  unfold msFromFields at *
  dsimp only
  omega

/-- `dt.setHours(dt.getHours() - n)` subtracts exactly `n` hours. -/
theorem jsSetHours1_sub (off ms n : Int) :
    jsSetHours1 off ms (jsGetHours off ms - n) = ms - n * 3600000 := by
  have h := msFromFields_localFields off ms
  unfold jsSetHours1 jsGetHours
  unfold msFromFields at *
  dsimp only
  omega

/-- `dt.setDate(dt.getDate() - n)` subtracts exactly `n` civil days (which,
under a fixed offset, is exactly `n * 86400000` ms). -/
theorem jsSetDate_sub (off ms n : Int) :
    jsSetDate off ms (jsGetDate off ms - n) = ms - n * 86400000 := by
  have h := msFromFields_localFields off ms
  have hd := daysFromCivil_day_sub (localFields off ms).y (localFields off ms).mo
    (localFields off ms).d n
  unfold jsSetDate jsGetDate
  unfold msFromFields at *
  dsimp only
  omega

/-- `setHours(h, mi, s, milli)` recomposes from the instant's local day. -/
theorem jsSetHours4_eq (off t h mi s milli : Int) :
    jsSetHours4 off t h mi s milli =
      localDays off t * 86400000 + h * 3600000 + mi * 60000 + s * 1000 + milli -
        off * 60000 := by
  unfold jsSetHours4 msFromFields localFields
  dsimp only
  rw [daysFromCivil_cfd]

/-- The local day number of a recomposed instant whose time-of-day part is in
range is the `daysFromCivil` of its date fields. -/
theorem localDays_msFromFields (off : Int) (f : Fields)
    (h0 : 0 ≤ f.h * 3600000 + f.mi * 60000 + f.s * 1000 + f.milli)
    (h1 : f.h * 3600000 + f.mi * 60000 + f.s * 1000 + f.milli < 86400000) :
    localDays off (msFromFields off f) = daysFromCivil f.y f.mo f.d := by
  unfold localDays msFromFields
  omega

/-! ## Character-level models of the source's regular expressions

The source dispatches on a fixed set of regular expressions.  Each one is
modelled by a scanner over `List Char` that reproduces the JS regex semantics
for that particular pattern: leftmost match position, ordered alternation,
greedy quantifiers with backtracking (resolved statically per pattern: e.g.
in `(\d{1,3})\s*(m|...)`, a 4-digit run can never match at its own start, and
shorter digit captures can never rescue a failed position, so a position
matches iff its maximal digit run has length 1..3).  `/i` matching is by
`Char.toLower`; patterns are stored lowercase. -/

/-- JS `\s` (ASCII part; the inputs of interest contain no Unicode spaces). -/
def isSpace (c : Char) : Bool :=
  c == ' ' || c == '\t' || c == '\n' || c == '\r' || c == '\x0b' || c == '\x0c'

/-- JS `String.prototype.trim` (ASCII whitespace). -/
def trimL (s : List Char) : List Char :=
  ((s.dropWhile isSpace).reverse.dropWhile isSpace).reverse

/-- Case-insensitive literal match: `ciMatch pat s` returns the rest of `s`
after `pat` (given lowercase) when `s` starts with it. -/
def ciMatch : List Char → List Char → Option (List Char)
  | [], s => some s
  | _ :: _, [] => none
  | p :: ps, c :: cs => if c.toLower = p then ciMatch ps cs else none

/-- `\s+` followed by maximal whitespace skip (greedy; the tokens that follow
it in the source's patterns never start with whitespace, so backtracking into
the run can never produce a match the greedy scan misses). -/
def wsPlus : List Char → Option (List Char)
  | [] => none
  | c :: cs => if isSpace c then some (cs.dropWhile isSpace) else none

/-- Decimal value of a digit run (JS `parseInt` on the captured digits). -/
def digitsVal (ds : List Char) : Nat :=
  ds.foldl (fun a c => 10 * a + (c.toNat - 48)) 0

/-- `(just\s*now)` at the head of the string (case-insensitive). -/
def jnAt (s : List Char) : Bool :=
  match ciMatch ['j', 'u', 's', 't'] s with
  | none => false
  | some r => (ciMatch ['n', 'o', 'w'] (r.dropWhile isSpace)).isSome

/-- `/(just\s*now)/i.test(cleaned)`: the pattern occurs anywhere. -/
def hasJustNow : List Char → Bool
  | [] => false
  | c :: cs => jnAt (c :: cs) || hasJustNow cs

/-- `(\d{1,3})\s*(m|mins?|minutes?|h|hrs?|hours?|d|days?)` at the head:
returns the captured number and the first character of the captured unit.
A digit run longer than 3 fails at this position (the character after any
shorter capture is a digit, which is neither whitespace nor a unit). -/
def relAt (s : List Char) : Option (Nat × Char) :=
  let ds := s.takeWhile Char.isDigit
  if ds.length = 0 then none
  else if 3 < ds.length then none
  else
    match (s.drop ds.length).dropWhile isSpace with
    | [] => none
    | c :: _ => if c = 'm' ∨ c = 'h' ∨ c = 'd' then some (digitsVal ds, c) else none

/-- Leftmost match of the short-relative pattern (`String.prototype.match`
semantics: try each start position left to right). -/
def relFind : List Char → Option (Nat × Char)
  | [] => none
  | c :: cs =>
    match relAt (c :: cs) with
    | some r => some r
    | none => relFind cs

/-- `(\d{1,2}):(\d{2})` at the head: hour, minute, rest after the minutes. -/
def hmAt (s : List Char) : Option (Nat × Nat × List Char) :=
  let ds := s.takeWhile Char.isDigit
  if ds.length = 0 then none
  else if 2 < ds.length then none
  else
    match s.drop ds.length with
    | ':' :: a :: b :: r3 =>
      if a.isDigit ∧ b.isDigit then some (digitsVal ds, digitsVal [a, b], r3) else none
    | _ => none

/-- `(AM|PM)` at the head, case-insensitive; `true` means PM. -/
def ampmAt (s : List Char) : Option Bool :=
  match ciMatch ['a', 'm'] s with
  | some _ => some false
  | none =>
    match ciMatch ['p', 'm'] s with
    | some _ => some true
    | none => none

/-- `Yesterday\s+at\s+(\d{1,2}):(\d{2})\s*(AM|PM)` at the head. -/
def yAt (s : List Char) : Option (Nat × Nat × Bool) := do
  let r1 ← ciMatch ['y', 'e', 's', 't', 'e', 'r', 'd', 'a', 'y'] s
  let r2 ← wsPlus r1
  let r3 ← ciMatch ['a', 't'] r2
  let r4 ← wsPlus r3
  let (h, mi, r5) ← hmAt r4
  let pm ← ampmAt (r5.dropWhile isSpace)
  pure (h, mi, pm)

/-- Leftmost match of the Yesterday pattern. -/
def yFind : List Char → Option (Nat × Nat × Bool)
  | [] => none
  | c :: cs =>
    match yAt (c :: cs) with
    | some r => some r
    | none => yFind cs

/-- The twelve month-name literals, in the alternation order of the source. -/
def monthLits : List (List Char) :=
  [['j', 'a', 'n', 'u', 'a', 'r', 'y'], ['f', 'e', 'b', 'r', 'u', 'a', 'r', 'y'],
   ['m', 'a', 'r', 'c', 'h'], ['a', 'p', 'r', 'i', 'l'], ['m', 'a', 'y'],
   ['j', 'u', 'n', 'e'], ['j', 'u', 'l', 'y'], ['a', 'u', 'g', 'u', 's', 't'],
   ['s', 'e', 'p', 't', 'e', 'm', 'b', 'e', 'r'], ['o', 'c', 't', 'o', 'b', 'e', 'r'],
   ['n', 'o', 'v', 'e', 'm', 'b', 'e', 'r'], ['d', 'e', 'c', 'e', 'm', 'b', 'e', 'r']]

/-- Ordered month alternation at the head; returns the 0-based month index
(the source's `monthNames.findIndex` on the capture yields the same index,
since the alternation and the lookup table coincide). -/
def monthAtAux : Nat → List (List Char) → List Char → Option (Nat × List Char)
  | _, [], _ => none
  | i, p :: ps, s =>
    match ciMatch p s with
    | some r => some (i, r)
    | none => monthAtAux (i + 1) ps s

def monthAt (s : List Char) : Option (Nat × List Char) := monthAtAux 0 monthLits s

/-- `(January|...|December)\s+(\d{1,2})\s+at\s+(\d{1,2}):(\d{2})\s*(AM|PM)`
at the head: month index, day, hour, minute, PM flag.  A day run longer than
2 digits fails at this position (the character after a shorter capture is a
digit, not whitespace). -/
def mAt (s : List Char) : Option (Nat × Nat × Nat × Nat × Bool) := do
  let (midx, r1) ← monthAt s
  let r2 ← wsPlus r1
  let ds := r2.takeWhile Char.isDigit
  if ds.length = 0 then none
  else if 2 < ds.length then none
  else do
    let r4 ← wsPlus (r2.drop ds.length)
    let r5 ← ciMatch ['a', 't'] r4
    let r6 ← wsPlus r5
    let (h, mm, r7) ← hmAt r6
    let pm ← ampmAt (r7.dropWhile isSpace)
    pure (midx, digitsVal ds, h, mm, pm)

/-- Leftmost match of the month-day pattern. -/
def mFind : List Char → Option (Nat × Nat × Nat × Nat × Bool)
  | [] => none
  | c :: cs =>
    match mAt (c :: cs) with
    | some r => some r
    | none => mFind cs

/-- The source's 12-hour conversion:
`if (ampm === 'PM' && h !== 12) h += 12; if (ampm === 'AM' && h === 12) h = 0;`. -/
def conv12 (h : Int) (pm : Bool) : Int :=
  if pm then (if h = 12 then 12 else h + 12) else (if h = 12 then 0 else h)

/-! ## `parseLooseDate` (src/utils/postTime.js)

`parseLooseDate(text, opts)` with `opts.now` modelled as `optsNow` and the
ambient wall clock (`new Date()` when `opts.now` is absent) as `wall`.
`toISO` preserves the instant, so results are the millisecond values
themselves. -/

def parseLooseDate (dp : String → Option Int) (off : Int) (text : String)
    (wall : Int) (optsNow : Option Int) : Option Int :=
  if text.data.isEmpty then none
  else
    let now := optsNow.getD wall
    let cleaned := trimL text.data
    let lower := cleaned.map Char.toLower
    if hasJustNow cleaned then some now
    else
      match relFind lower with
      | some (n, u) =>
        some (if u = 'm' then jsSetMinutes off now (jsGetMinutes off now - (n : Int))
          else if u = 'h' then jsSetHours1 off now (jsGetHours off now - (n : Int))
          else jsSetDate off now (jsGetDate off now - (n : Int)))
      | none =>
        match yFind cleaned with
        | some (h, mi, pm) =>
          some (jsSetHours4 off (jsSetDate off now (jsGetDate off now - 1))
            (conv12 (h : Int) pm) (mi : Int) 0 0)
        | none =>
          match mFind cleaned with
          | some (mon, day, h, mi, pm) =>
            some (jsSetHours4 off (jsSetMonthDay off now (mon : Int) (day : Int))
              (conv12 (h : Int) pm) (mi : Int) 0 0)
          | none => dp (String.mk cleaned)

/-! ## `normalizeToISO` and the candidate pipeline (src/utils/postTime.js) -/

/-- `normalizeToISO(v)`: `new Date(v)` through the generic parser; invalid
(non-finite) dates give `null`; otherwise `toISOString` renders the instant. -/
def normalizeToISO (dp : String → Option Int) (v : String) : Option Int :=
  match dp v with
  | none => none
  | some t => some t

/-- Candidate kinds.  The harvester inside `extractPostDateISO` produces
`datetime`, `title`, `aria` and `text`; `epoch` is the spec's `EpochSeconds`
kind (in the code an epoch-seconds signal appears only in `extractPostDetails`
via `abbr[data-utime]`, never as a harvested candidate). -/
inductive CKind
  | datetime | title | aria | text | epoch
deriving DecidableEq

def kindTag : CKind → String
  | .datetime => "datetime"
  | .title => "title"
  | .aria => "aria"
  | .text => "text"
  | .epoch => "epoch"

structure Candidate where
  kind : CKind
  value : String
deriving DecidableEq

/-- Each maximal whitespace run becomes a single space (`/\s+/g → ' '`). -/
def squeezeWs : List Char → List Char
  | [] => []
  | c :: cs =>
    let c' := if isSpace c then ' ' else c
    match squeezeWs cs with
    | [] => [c']
    | d :: ds => if c' = ' ' ∧ d = ' ' then d :: ds else c' :: d :: ds

/-- Whitespace collapse of OCR text: `.replace(/\s+/g, ' ').trim()`. -/
def collapseWs (s : String) : String :=
  String.mk (trimL (squeezeWs s.data))

/-- First tier of `extractPostDateISO`: scan `datetime`-kind candidates
through `normalizeToISO`, first success wins. -/
def tierDatetime (dp : String → Option Int) (cs : List Candidate) : Option (Int × String) :=
  cs.findSome? fun c =>
    if c.kind = .datetime then (normalizeToISO dp c.value).map (fun t => (t, "dom_datetime"))
    else none

def isTextKind (k : CKind) : Bool :=
  k == .title || k == .aria || k == .text

/-- Second tier: scan `title`/`aria`/`text` candidates through
`parseLooseDate` (called without `opts`, hence against the wall clock). -/
def tierText (dp : String → Option Int) (off wall : Int) (cs : List Candidate) :
    Option (Int × String) :=
  cs.findSome? fun c =>
    if isTextKind c.kind then
      (parseLooseDate dp off c.value wall none).map
        (fun t => (t, "dom_" ++ kindTag c.kind))
    else none

/-- OCR tier: the capability result is `some recognizedText` on success and
`none` when the capability is unavailable, errors or times out (the source
wraps the whole tier in `try { ... } catch (_) {}`). -/
def tierOcr (dp : String → Option Int) (off wall : Int) (ocr : Option String) :
    Option (Int × String) :=
  ocr.bind fun txt =>
    (parseLooseDate dp off (collapseWs txt) wall none).map (fun t => (t, "ocr"))

/-- The tiers of `extractPostDateISO`, in source order, on an already-capped
candidate list. -/
def resolveTiers (dp : String → Option Int) (off wall : Int) (cs : List Candidate)
    (ocr : Option String) : Option (Int × String) :=
  match tierDatetime dp cs with
  | some r => some r
  | none =>
    match tierText dp off wall cs with
    | some r => some r
    | none => tierOcr dp off wall ocr

/-- `extractPostDateISO`: the harvester caps the candidate list at 50
(`candidates.slice(0, 50)`), then the tiers run in order. -/
def extractPostDateISO (dp : String → Option Int) (off wall : Int)
    (cands : List Candidate) (ocr : Option String) : Option (Int × String) :=
  resolveTiers dp off wall (cands.take 50) ocr

/-! ## `extractPostDetails` timestamp extraction (src/main.js)

The desktop scrape tries, in order: `abbr[data-utime]` epoch seconds, a
`time[datetime]` ISO attribute, an absolute attribute string, and finally the
visible relative text.  The pure logic of the epoch source and of the
relative-text branch (main.js lines 84-143) is embedded below. -/

/-- JS `parseInt(s, 10)`: leading whitespace, optional sign, maximal digit
run; `NaN` (here `none`) when no digit follows. -/
def jsParseInt10 (s : String) : Option Int :=
  match s.data.dropWhile isSpace with
  | '-' :: r => (decDigitsPfx r).map (fun n => -(n : Int))
  | '+' :: r => (decDigitsPfx r).map (fun n => (n : Int))
  | r => (decDigitsPfx r).map (fun n => (n : Int))
where
  decDigitsPfx (r : List Char) : Option Nat :=
    let ds := r.takeWhile Char.isDigit
    if ds.isEmpty then none else some (digitsVal ds)

/-- The `abbr[data-utime]` source: `parseInt` then `new Date(ut * 1000)`
(main.js lines 42-49). -/
def dataUtimeMs (s : String) : Option Int :=
  (jsParseInt10 s).map (fun ut => ut * 1000)

/-- Case-insensitive whole-string equality against a lowercase literal
(an anchored `/^lit$/i` test). -/
def ciEqStr (a : List Char) (pat : List Char) : Bool :=
  match ciMatch pat a with
  | some [] => true
  | _ => false

/-- The anchored short-relative patterns `/^(\d+)\s*m(in)?$/i`,
`/^(\d+)\s*h(ours?)?$/i`, `/^(\d+)\s*d(ays?)?$/i` of main.js. -/
def mainShortRel (s : List Char) (wall : Int) : Option Int :=
  let ds := s.takeWhile Char.isDigit
  if ds.isEmpty then none
  else
    let r := (s.drop ds.length).dropWhile isSpace
    let n : Int := (digitsVal ds : Int)
    if ciEqStr r ['m'] || ciEqStr r ['m', 'i', 'n'] then some (wall - n * 60000)
    else if ciEqStr r ['h'] || ciEqStr r ['h', 'o', 'u', 'r'] ||
        ciEqStr r ['h', 'o', 'u', 'r', 's'] then some (wall - n * 3600000)
    else if ciEqStr r ['d'] || ciEqStr r ['d', 'a', 'y'] ||
        ciEqStr r ['d', 'a', 'y', 's'] then some (wall - n * 86400000)
    else none

/-- `([A-Za-z]+)\s+(\d{1,2})(?:,\s*(\d{4}))?(?:\s*at\s*(\d{1,2}:\d{2}\s*(?:AM|PM)))?`
at the head: the word, the day, the optional year, the optional time.  The
optional groups fail softly (the regex match as a whole succeeds as soon as
word, whitespace and day digits are present). -/
def mdAt (s : List Char) :
    Option (List Char × Nat × Option Nat × Option (Nat × Nat × Bool)) :=
  let al := s.takeWhile Char.isAlpha
  if al.isEmpty then none
  else
    match wsPlus (s.drop al.length) with
    | none => none
    | some r2 =>
      let ds := r2.takeWhile Char.isDigit
      if ds.isEmpty then none
      else
        let dtake := min 2 ds.length
        let day := digitsVal (ds.take dtake)
        let r3 := r2.drop dtake
        let yr :=
          match r3 with
          | ',' :: rr =>
            let rr2 := rr.dropWhile isSpace
            let ys := rr2.takeWhile Char.isDigit
            if 4 ≤ ys.length then (some (digitsVal (ys.take 4)), rr2.drop 4)
            else ((none : Option Nat), r3)
          | _ => ((none : Option Nat), r3)
        let timeOpt : Option (Nat × Nat × Bool) := do
          let ra ← ciMatch ['a', 't'] (yr.2.dropWhile isSpace)
          let (h, mi, r5) ← hmAt (ra.dropWhile isSpace)
          let pm ← ampmAt (r5.dropWhile isSpace)
          pure (h, mi, pm)
        some (al, day, yr.1, timeOpt)

/-- Leftmost match of the month-day pattern of main.js. -/
def mdFind : List Char → Option (List Char × Nat × Option Nat × Option (Nat × Nat × Bool))
  | [] => none
  | c :: cs =>
    match mdAt (c :: cs) with
    | some r => some r
    | none => mdFind cs

/-- Modelled from the spec (out-of-repo platform behavior): the V8 date
keyword matcher resolves a word to a month when the word, case-insensitively,
is a prefix of the month name of length at least 3 ("Sep", "Sept",
"September"). -/
def jsMonthIdx (w : List Char) : Option Nat :=
  jsMonthIdxAux 0 monthLits (w.map Char.toLower)
where
  jsMonthIdxAux : Nat → List (List Char) → List Char → Option Nat
    | _, [], _ => none
    | i, p :: ps, lw =>
      if 3 ≤ lw.length ∧ p.take lw.length = lw then some i
      else jsMonthIdxAux (i + 1) ps lw

def isLeapYear (y : Int) : Bool :=
  (y % 4 == 0 && y % 100 != 0) || y % 400 == 0

def daysInMonth (y m : Int) : Int :=
  if m = 2 then (if isLeapYear y then 29 else 28)
  else if m = 4 ∨ m = 6 ∨ m = 9 ∨ m = 11 then 30 else 31

/-- The time-of-day part of the `Date.parse` model: absence means local
midnight; an `AM|PM` time needs hour `1..12` and minutes `0..59`, and is
mapped through the 12-hour conversion. -/
def convTime : Option (Nat × Nat × Bool) → Option (Int × Int)
  | none => some (0, 0)
  | some (h, mi, pm) =>
    if 1 ≤ (h : Int) ∧ (h : Int) ≤ 12 ∧ (mi : Int) ≤ 59 then
      some (conv12 (h : Int) pm, (mi : Int))
    else none

/-- Modelled from the spec (out-of-repo platform behavior): V8's `Date.parse`
on the constructed string `"<Month> <D>, <Y>[ <H>:<MM> <AM|PM>]"` — a local
civil time; the day must exist in the month and an `AM|PM` hour must be in
`1..12` with minutes `0..59`, otherwise the parse is `NaN`. -/
def jsParseMDYT (off : Int) (w : List Char) (day year : Int)
    (time : Option (Nat × Nat × Bool)) : Option Int :=
  (jsMonthIdx w).bind fun midx =>
    if 1 ≤ day ∧ day ≤ daysInMonth year ((midx : Int) + 1) then
      (convTime time).map fun t =>
        msFromFields off ⟨year, (midx : Int) + 1, day, t.1, t.2, 0, 0⟩
    else none

/-- The relative-text branch of `extractPostDetails` (main.js lines 84-143):
anchored relative forms, then `Date.parse` on the raw text, then the
month-day rule with default year and single year-rollback. -/
def extractPostDetailsTs (dp : String → Option Int) (off : Int) (relTxt : String)
    (wall : Int) : Option (Int × String) :=
  if relTxt.data.isEmpty then none
  else if ciEqStr relTxt.data ['j', 'u', 's', 't', ' ', 'n', 'o', 'w'] then
    some (wall, "desktop:relative")
  else
    match mainShortRel relTxt.data wall with
    | some t => some (t, "desktop:relative")
    | none =>
      if ciEqStr relTxt.data ['y', 'e', 's', 't', 'e', 'r', 'd', 'a', 'y'] then
        some (wall - 86400000, "desktop:relative")
      else
        match dp relTxt with
        | some p => some (p, "desktop:Date.parse(relative)")
        | none =>
          match mdFind relTxt.data with
          | none => none
          | some (w, day, yOpt, tOpt) =>
            let year : Int :=
              match yOpt with
              | some yr => (yr : Int)
              | none => (localFields off wall).y
            match jsParseMDYT off w (day : Int) year tOpt with
            | none => none
            | some parsed =>
              if wall < parsed then
                match jsParseMDYT off w (day : Int) (year - 1) tOpt with
                | none => none
                | some p2 => some (p2, "desktop:relative-month")
              else some (parsed, "desktop:relative-month")

/-- Milliseconds per unit of the short relative form. -/
def scaleMs (u : Char) : Int :=
  if u = 'm' then 60000 else if u = 'h' then 3600000 else 86400000

/-! ## Branch lemmas for `parseLooseDate` -/

/-- Rule 2 (short relative form): when rule 1 does not fire and the
short-relative pattern matches, the result is the reference clock minus
`n` units exactly. -/
theorem parseLooseDate_rel (dp : String → Option Int) (off : Int) (text : String)
    (wall now : Int) (n : Nat) (u : Char)
    (hne : text.data.isEmpty = false)
    (hjn : hasJustNow (trimL text.data) = false)
    (hrel : relFind ((trimL text.data).map Char.toLower) = some (n, u)) :
    parseLooseDate dp off text wall (some now) = some (now - (n : Int) * scaleMs u) := by
  simp only [parseLooseDate, hne, hjn, hrel, Bool.false_eq_true, if_false, Option.getD_some]
  by_cases hm : u = 'm'
  · subst hm
    rw [if_pos rfl, jsSetMinutes_sub]
    have hs : scaleMs 'm' = 60000 := rfl
    rw [hs]
  · by_cases hh : u = 'h'
    · subst hh
      rw [if_neg (by decide), if_pos rfl, jsSetHours1_sub]
      have hs : scaleMs 'h' = 3600000 := rfl
      rw [hs]
    · rw [if_neg hm, if_neg hh, jsSetDate_sub]
      have hs : scaleMs u = 86400000 := by
        unfold scaleMs
        rw [if_neg hm, if_neg hh]
      rw [hs]

/-- Under a fixed offset, shifting an instant by a whole day shifts its local
day number by one. -/
theorem localDays_shift_day (off ms : Int) :
    localDays off (ms - 86400000) = localDays off ms - 1 := by
  unfold localDays
  omega

/-- Rule 3 (`Yesterday at HH:MM AM|PM`): when rules 1-2 do not fire and the
Yesterday pattern matches, the result is the previous local calendar day of
the reference clock with the hour/minute overridden (12-hour conversion) and
seconds/milliseconds zeroed. -/
theorem parseLooseDate_yesterday (dp : String → Option Int) (off : Int) (text : String)
    (wall now : Int) (h mi : Nat) (pm : Bool)
    (hne : text.data.isEmpty = false)
    (hjn : hasJustNow (trimL text.data) = false)
    (hrel : relFind ((trimL text.data).map Char.toLower) = none)
    (hy : yFind (trimL text.data) = some (h, mi, pm)) :
    parseLooseDate dp off text wall (some now) =
      some ((localDays off now - 1) * 86400000 + conv12 (h : Int) pm * 3600000 +
        (mi : Int) * 60000 - off * 60000) := by
  simp only [parseLooseDate, hne, hjn, hrel, hy, Bool.false_eq_true, if_false, Option.getD_some]
  have h1 : jsSetDate off now (jsGetDate off now - 1) = now - 1 * 86400000 := jsSetDate_sub off now 1
  rw [h1, jsSetHours4_eq]
  have h2 : now - 1 * 86400000 = now - 86400000 := by ring
  rw [h2, localDays_shift_day]
  ring_nf

/-- Rule 4 (`Month DD at HH:MM AM|PM`): when rules 1-3 do not fire and the
month pattern matches, the result is the matched month/day in the reference
clock's local civil year, with the converted hour/minute and zeroed
seconds/milliseconds (`setMonth(month, day)`; out-of-range days roll over). -/
theorem parseLooseDate_month (dp : String → Option Int) (off : Int) (text : String)
    (wall now : Int) (mon day h mi : Nat) (pm : Bool)
    (hne : text.data.isEmpty = false)
    (hjn : hasJustNow (trimL text.data) = false)
    (hrel : relFind ((trimL text.data).map Char.toLower) = none)
    (hyn : yFind (trimL text.data) = none)
    (hm : mFind (trimL text.data) = some (mon, day, h, mi, pm)) :
    parseLooseDate dp off text wall (some now) =
      some (daysFromCivil (localFields off now).y ((mon : Int) + 1) (day : Int) * 86400000 +
        conv12 (h : Int) pm * 3600000 + (mi : Int) * 60000 - off * 60000) := by
  simp only [parseLooseDate, hne, hjn, hrel, hyn, hm, Bool.false_eq_true, if_false,
    Option.getD_some]
  rw [jsSetHours4_eq]
  have hb := localFields_bounds off now
  have hld : localDays off (jsSetMonthDay off now (mon : Int) (day : Int)) =
      daysFromCivil (localFields off now).y ((mon : Int) + 1) (day : Int) := by
    unfold jsSetMonthDay
    rw [localDays_msFromFields off _ (by dsimp only; omega) (by dsimp only; omega)]
  rw [hld]
  ring_nf

/-! ## Support lemmas for the claim theorems -/

theorem char_digit_toNat {c : Char} (h : c.isDigit = true) : c.toNat - 48 ≤ 9 := by
  simp [Char.isDigit] at h
  obtain ⟨h1, h2⟩ := h
  have : c.toNat ≤ 57 := h2
  omega

theorem digitsVal_aux : ∀ (ds : List Char) (a : Nat), (∀ c ∈ ds, c.isDigit = true) →
    List.foldl (fun a c => 10 * a + (c.toNat - 48)) a ds < (a + 1) * 10 ^ ds.length := by
  intro ds
  induction ds with
  | nil =>
    intro a _
    have : (a + 1) * 10 ^ ([] : List Char).length = a + 1 := by simp
    rw [this]
    exact Nat.lt_succ_self a
  | cons c cs ih =>
    intro a h
    have hc : c.toNat - 48 ≤ 9 := char_digit_toNat (h c (by simp))
    have hrec := ih (10 * a + (c.toNat - 48)) (fun x hx => h x (by simp [hx]))
    have hstep : 10 * a + (c.toNat - 48) + 1 ≤ 10 * (a + 1) := by omega
    calc List.foldl (fun a c => 10 * a + (c.toNat - 48)) (10 * a + (c.toNat - 48)) cs
        < (10 * a + (c.toNat - 48) + 1) * 10 ^ cs.length := hrec
      _ ≤ (10 * (a + 1)) * 10 ^ cs.length := Nat.mul_le_mul_right _ hstep
      _ = (a + 1) * 10 ^ (c :: cs).length := by
          simp only [List.length_cons, pow_succ]
          ring

theorem digitsVal_lt (ds : List Char) (h : ∀ c ∈ ds, c.isDigit = true) :
    digitsVal ds < 10 ^ ds.length := by
  have := digitsVal_aux ds 0 h
  simpa [digitsVal] using this

/-- The number captured by the short-relative pattern has at most 3 digits. -/
theorem relAt_bound (s : List Char) (n : Nat) (u : Char) (h : relAt s = some (n, u)) :
    n ≤ 999 := by
  have hd : digitsVal (s.takeWhile Char.isDigit) < 10 ^ (s.takeWhile Char.isDigit).length :=
    digitsVal_lt _ (fun c hc => List.mem_takeWhile_imp hc)
  simp only [relAt] at h
  split at h
  · cases h
  · split at h
    · cases h
    · rename_i h0 h3
      have hle : (10 : Nat) ^ (s.takeWhile Char.isDigit).length ≤ 1000 := by
        have h3' : (s.takeWhile Char.isDigit).length ≤ 3 := by omega
        calc (10 : Nat) ^ (s.takeWhile Char.isDigit).length ≤ 10 ^ 3 :=
              Nat.pow_le_pow_right (by omega) h3'
          _ = 1000 := by norm_num
      split at h
      · cases h
      · split at h
        · cases h
          omega
        · cases h

theorem relFind_bound : ∀ (s : List Char) (n : Nat) (u : Char),
    relFind s = some (n, u) → n ≤ 999 := by
  intro s
  induction s with
  | nil => intro n u h; simp [relFind] at h
  | cons c cs ih =>
    intro n u h
    rw [relFind] at h
    cases hAt : relAt (c :: cs) with
    | some r =>
      rw [hAt] at h
      cases h
      exact relAt_bound (c :: cs) n u hAt
    | none =>
      rw [hAt] at h
      exact ih n u h

/-- The source's 12-hour conversion maps a 1..12 hour into 0..23. -/
theorem conv12_bounds (h : Int) (pm : Bool) (h1 : 1 ≤ h) (h2 : h ≤ 12) :
    0 ≤ conv12 h pm ∧ conv12 h pm ≤ 23 := by
  unfold conv12
  split_ifs <;> omega

theorem daysInMonth_bounds (y m : Int) : 28 ≤ daysInMonth y m ∧ daysInMonth y m ≤ 31 := by
  unfold daysInMonth
  split_ifs <;> omega

/-- The time part of the `Date.parse` model is a valid local time of day. -/
theorem convTime_bounds (tOpt : Option (Nat × Nat × Bool)) (t : Int × Int)
    (h : convTime tOpt = some t) : 0 ≤ t.1 ∧ t.1 ≤ 23 ∧ 0 ≤ t.2 ∧ t.2 ≤ 59 := by
  cases tOpt with
  | none =>
    simp only [convTime] at h
    cases h
    refine ⟨by norm_num, by norm_num, by norm_num, by norm_num⟩
  | some q =>
    obtain ⟨h', mi', pm'⟩ := q
    simp only [convTime] at h
    split at h
    · rename_i htv
      cases h
      have hc := conv12_bounds (h' : Int) pm' htv.1 htv.2.1
      exact ⟨hc.1, hc.2, by omega, htv.2.2⟩
    · cases h

theorem jsMonthIdxAux_lt : ∀ (ps : List (List Char)) (i : Nat) (lw : List Char) (j : Nat),
    jsMonthIdx.jsMonthIdxAux i ps lw = some j → j < i + ps.length := by
  intro ps
  induction ps with
  | nil => intro i lw j h; simp [jsMonthIdx.jsMonthIdxAux] at h
  | cons p ps ih =>
    intro i lw j h
    rw [jsMonthIdx.jsMonthIdxAux] at h
    by_cases hc : 3 ≤ lw.length ∧ p.take lw.length = lw
    · rw [if_pos hc] at h
      cases h
      simp
    · rw [if_neg hc] at h
      have := ih (i + 1) lw j h
      simp only [List.length_cons]
      omega

/-- A resolved month index is 0-based and at most 11. -/
theorem jsMonthIdx_le (w : List Char) (j : Nat) (h : jsMonthIdx w = some j) : j ≤ 11 := by
  have := jsMonthIdxAux_lt monthLits 0 (w.map Char.toLower) j h
  simp [monthLits] at this
  omega

/-- A recomposed instant of the previous civil year of the clock's local year,
with in-range fields, is at most the clock. -/
theorem msFromFields_prev_year_le (off wall m d hh mi : Int)
    (hm : 1 ≤ m ∧ m ≤ 12) (hd : 1 ≤ d ∧ d ≤ 31)
    (hh' : 0 ≤ hh ∧ hh ≤ 23) (hmi : 0 ≤ mi ∧ mi ≤ 59) :
    msFromFields off ⟨(localFields off wall).y - 1, m, d, hh, mi, 0, 0⟩ ≤ wall := by
  have hrt := msFromFields_localFields off wall
  have hb := localFields_bounds off wall
  have h1 := dfc_jan1_le (localFields off wall).y (localFields off wall).mo
    (localFields off wall).d hb.1 hb.2.1 hb.2.2.1 hb.2.2.2.1
  have h2 := dfc_prev_year_lt (localFields off wall).y m d hm.1 hm.2 hd.1 hd.2
  unfold msFromFields at *
  dsimp only at *
  omega

/-! ## Concrete fixtures for witnesses and counterexamples -/

/-- A generic-parser stub that parses nothing (`new Date(s)` invalid for every
fallback string), as in a deterministic test harness. -/
def dpNone : String → Option Int := fun _ => none

/-- The spec's reference clock 2025-09-13T12:00:00+08:00, in epoch ms. -/
def refClock : Int := 1757736000000

/-! ## Claim theorems -/

/-- C3 (amended): for every input whose lower-cased trimmed text matches the
short relative pattern `<N><unit>` first (i.e. the input does not also contain
the higher-priority `just now` pattern), the parser returns exactly the
reference clock minus `N` × {60, 3600, 86400} seconds, and the captured `N`
has at most three digits (`N ≤ 999`). -/
theorem claim_C3_short_relative (dp : String → Option Int) (off : Int) (text : String)
    (wall now : Int) (n : Nat) (u : Char)
    (hne : text.data.isEmpty = false)
    (hjn : hasJustNow (trimL text.data) = false)
    (hrel : relFind ((trimL text.data).map Char.toLower) = some (n, u)) :
    parseLooseDate dp off text wall (some now) = some (now - (n : Int) * scaleMs u) ∧
      n ≤ 999 :=
  ⟨parseLooseDate_rel dp off text wall now n u hne hjn hrel, relFind_bound _ n u hrel⟩

theorem claim_C3_witness :
    parseLooseDate dpNone 480 "5m" 0 (some refClock) =
      some (refClock - ((5 : Nat) : Int) * scaleMs 'm') ∧ (5 : Nat) ≤ 999 :=
  claim_C3_short_relative dpNone 480 "5m" 0 refClock 5 'm' (by decide) (by decide) (by decide)

/-- C3 counterexample: the input `"just now 5m"` contains the short relative
form `5m` (the pattern matches it), yet the parser returns the reference clock
itself (rule 1 fires first), not the clock minus 5 minutes. -/
theorem claim_C3_counterexample :
    parseLooseDate dpNone 480 "just now 5m" 0 (some refClock) = some refClock ∧
      relFind ((trimL ("just now 5m".data)).map Char.toLower) = some (5, 'm') ∧
      refClock ≠ refClock - 5 * 60000 := by
  refine ⟨by decide, by decide, by decide⟩

/-- C6: for every input matching the `Yesterday at HH:MM AM|PM` rule (rules 1
and 2 not firing first), the parser returns the previous local calendar day of
the reference clock with hour and minute overridden by the 12-hour conversion
(12 AM → 0, 12 PM → 12, other PM hours +12) and zeroed seconds; in particular,
with reference clock 2025-09-13T12:00:00+08:00, `"Yesterday at 3:45 PM"`
resolves to 2025-09-12T15:45:00+08:00 (the witness instantiates this). -/
theorem claim_C6_yesterday (dp : String → Option Int) (off : Int) (text : String)
    (wall now : Int) (h mi : Nat) (pm : Bool)
    (hne : text.data.isEmpty = false)
    (hjn : hasJustNow (trimL text.data) = false)
    (hrel : relFind ((trimL text.data).map Char.toLower) = none)
    (hy : yFind (trimL text.data) = some (h, mi, pm)) :
    parseLooseDate dp off text wall (some now) =
      some ((localDays off now - 1) * 86400000 + conv12 (h : Int) pm * 3600000 +
        (mi : Int) * 60000 - off * 60000) :=
  parseLooseDate_yesterday dp off text wall now h mi pm hne hjn hrel hy

theorem claim_C6_witness :
    parseLooseDate dpNone 480 "Yesterday at 3:45 PM" 0 (some refClock) =
      some 1757663100000 :=
  (claim_C6_yesterday dpNone 480 "Yesterday at 3:45 PM" 0 refClock 3 45 true
    (by decide) (by decide) (by decide) (by decide)).trans (by decide)

/-- C1 (amended): `parseLooseDate` performs no year rollback (see the
counterexample); the rollback lives in `extractPostDetails`'s month-day path.
There, for a month/day text with the year omitted (defaulted to the reference
clock's local year) whose naive parse is strictly after the reference clock,
the year is decremented by exactly one, the date is recomputed, and — because
the defaulted year is the clock's own civil year — the recomputed instant is
at most the reference clock. -/
theorem claim_C1_year_rollback (dp : String → Option Int) (off : Int) (relTxt : String)
    (wall : Int) (w : List Char) (day : Nat) (tOpt : Option (Nat × Nat × Bool)) (p p2 : Int)
    (h1 : relTxt.data.isEmpty = false)
    (h2 : ciEqStr relTxt.data ['j', 'u', 's', 't', ' ', 'n', 'o', 'w'] = false)
    (h3 : mainShortRel relTxt.data wall = none)
    (h4 : ciEqStr relTxt.data ['y', 'e', 's', 't', 'e', 'r', 'd', 'a', 'y'] = false)
    (h5 : dp relTxt = none)
    (h6 : mdFind relTxt.data = some (w, day, none, tOpt))
    (h7 : jsParseMDYT off w (day : Int) (localFields off wall).y tOpt = some p)
    (h8 : wall < p)
    (h9 : jsParseMDYT off w (day : Int) ((localFields off wall).y - 1) tOpt = some p2) :
    extractPostDetailsTs dp off relTxt wall = some (p2, "desktop:relative-month") ∧
      p2 ≤ wall := by
  constructor
  · simp only [extractPostDetailsTs, h1, h2, h3, h4, h5, h6, Bool.false_eq_true, if_false,
      h7, if_pos h8, h9]
  · unfold jsParseMDYT at h9
    cases hmi : jsMonthIdx w with
    | none => rw [hmi] at h9; cases h9
    | some midx =>
      rw [hmi, Option.some_bind] at h9
      have hm12 : midx ≤ 11 := jsMonthIdx_le w midx hmi
      have hd31 := daysInMonth_bounds ((localFields off wall).y - 1) ((midx : Int) + 1)
      by_cases hvalid : 1 ≤ (day : Int) ∧
          (day : Int) ≤ daysInMonth ((localFields off wall).y - 1) ((midx : Int) + 1)
      · rw [if_pos hvalid] at h9
        cases hct : convTime tOpt with
        | none => rw [hct] at h9; cases h9
        | some t =>
          rw [hct, Option.map_some'] at h9
          cases h9
          obtain ⟨hh0, hh23, hmi0, hmi59⟩ := convTime_bounds tOpt t hct
          exact msFromFields_prev_year_le off wall ((midx : Int) + 1) (day : Int) t.1 t.2
            ⟨by omega, by omega⟩ ⟨hvalid.1, by omega⟩ ⟨hh0, hh23⟩ ⟨hmi0, hmi59⟩
      · rw [if_neg hvalid] at h9
        cases h9

theorem claim_C1_witness :
    extractPostDetailsTs dpNone 480 "December 31 at 11:59 PM" refClock =
      some (1735660740000, "desktop:relative-month") ∧ (1735660740000 : Int) ≤ refClock := by
  have h := claim_C1_year_rollback dpNone 480 "December 31 at 11:59 PM" refClock
    ("December".data) 31 (some (11, 59, true)) 1767196740000 1735660740000
    rfl rfl rfl rfl rfl rfl rfl (by decide) rfl
  exact h

/-- C1 counterexample: for the month/day input `"December 31 at 11:59 PM"`
whose default-year parse falls strictly after the reference clock
2025-09-13T12:00:00+08:00, the relative date parser (`parseLooseDate`)
returns the *naive* instant 2025-12-31T23:59:00+08:00, strictly after the
reference clock: it never decrements the year. -/
theorem claim_C1_counterexample :
    parseLooseDate dpNone 480 "December 31 at 11:59 PM" 0 (some refClock) =
      some 1767196740000 ∧ refClock < 1767196740000 := by
  refine ⟨by decide, by decide⟩

/-- C4 (amended): in `parseLooseDate`'s month rule the `at HH:MM AM|PM` time
is mandatory and no year may appear (the year is always the reference clock's
local civil year, the 12-hour conversion is applied, seconds are zeroed); the
optional year and optional time of the claim exist only in
`extractPostDetails`'s month-day path, where an omitted year defaults to the
clock's local civil year, an omitted time defaults to local midnight, and an
explicit year (with a time) is honored. -/
theorem claim_C4_month_rule :
    (∀ (dp : String → Option Int) (off : Int) (text : String) (wall now : Int)
        (mon day h mi : Nat) (pm : Bool),
      text.data.isEmpty = false →
      hasJustNow (trimL text.data) = false →
      relFind ((trimL text.data).map Char.toLower) = none →
      yFind (trimL text.data) = none →
      mFind (trimL text.data) = some (mon, day, h, mi, pm) →
      parseLooseDate dp off text wall (some now) =
        some (daysFromCivil (localFields off now).y ((mon : Int) + 1) (day : Int) * 86400000 +
          conv12 (h : Int) pm * 3600000 + (mi : Int) * 60000 - off * 60000)) ∧
    (∀ (dp : String → Option Int) (off : Int) (relTxt : String) (wall : Int)
        (w : List Char) (day midx : Nat),
      relTxt.data.isEmpty = false →
      ciEqStr relTxt.data ['j', 'u', 's', 't', ' ', 'n', 'o', 'w'] = false →
      mainShortRel relTxt.data wall = none →
      ciEqStr relTxt.data ['y', 'e', 's', 't', 'e', 'r', 'd', 'a', 'y'] = false →
      dp relTxt = none →
      mdFind relTxt.data = some (w, day, none, none) →
      jsMonthIdx w = some midx →
      (1 ≤ (day : Int) ∧
        (day : Int) ≤ daysInMonth (localFields off wall).y ((midx : Int) + 1)) →
      msFromFields off
        ⟨(localFields off wall).y, (midx : Int) + 1, (day : Int), 0, 0, 0, 0⟩ ≤ wall →
      extractPostDetailsTs dp off relTxt wall =
        some (msFromFields off
          ⟨(localFields off wall).y, (midx : Int) + 1, (day : Int), 0, 0, 0, 0⟩,
          "desktop:relative-month")) ∧
    (∀ (dp : String → Option Int) (off : Int) (relTxt : String) (wall : Int)
        (w : List Char) (day midx yr h mi : Nat) (pm : Bool),
      relTxt.data.isEmpty = false →
      ciEqStr relTxt.data ['j', 'u', 's', 't', ' ', 'n', 'o', 'w'] = false →
      mainShortRel relTxt.data wall = none →
      ciEqStr relTxt.data ['y', 'e', 's', 't', 'e', 'r', 'd', 'a', 'y'] = false →
      dp relTxt = none →
      mdFind relTxt.data = some (w, day, some yr, some (h, mi, pm)) →
      jsMonthIdx w = some midx →
      (1 ≤ (day : Int) ∧ (day : Int) ≤ daysInMonth (yr : Int) ((midx : Int) + 1)) →
      (1 ≤ (h : Int) ∧ (h : Int) ≤ 12 ∧ (mi : Int) ≤ 59) →
      msFromFields off ⟨(yr : Int), (midx : Int) + 1, (day : Int), conv12 (h : Int) pm,
        (mi : Int), 0, 0⟩ ≤ wall →
      extractPostDetailsTs dp off relTxt wall =
        some (msFromFields off ⟨(yr : Int), (midx : Int) + 1, (day : Int),
          conv12 (h : Int) pm, (mi : Int), 0, 0⟩, "desktop:relative-month")) := by
  refine ⟨?_, ?_, ?_⟩
  · intro dp off text wall now mon day h mi pm hne hjn hrel hyn hm
    exact parseLooseDate_month dp off text wall now mon day h mi pm hne hjn hrel hyn hm
  · intro dp off relTxt wall w day midx h1 h2 h3 h4 h5 h6 hmidx hvalid hle
    have hp : jsParseMDYT off w (day : Int) (localFields off wall).y none =
        some (msFromFields off
          ⟨(localFields off wall).y, (midx : Int) + 1, (day : Int), 0, 0, 0, 0⟩) := by
      unfold jsParseMDYT
      rw [hmidx, Option.some_bind, if_pos hvalid]
      rfl
    simp only [extractPostDetailsTs, h1, h2, h3, h4, h5, h6, Bool.false_eq_true, if_false,
      hp, if_neg (not_lt.mpr hle)]
  · intro dp off relTxt wall w day midx yr h mi pm h1 h2 h3 h4 h5 h6 hmidx hvalid htv hle
    have hp : jsParseMDYT off w (day : Int) (yr : Int) (some (h, mi, pm)) =
        some (msFromFields off ⟨(yr : Int), (midx : Int) + 1, (day : Int),
          conv12 (h : Int) pm, (mi : Int), 0, 0⟩) := by
      unfold jsParseMDYT
      rw [hmidx, Option.some_bind, if_pos hvalid]
      simp only [convTime]
      rw [if_pos htv]
      rfl
    simp only [extractPostDetailsTs, h1, h2, h3, h4, h5, h6, Bool.false_eq_true, if_false,
      hp, if_neg (not_lt.mpr hle)]

theorem claim_C4_witness :
    parseLooseDate dpNone 480 "September 13 at 2:34 PM" 0 (some refClock) =
      some 1757745240000 :=
  (claim_C4_month_rule.1 dpNone 480 "September 13 at 2:34 PM" 0 refClock 8 13 2 34 true
    rfl rfl rfl rfl rfl).trans (by decide)

/-- C4 counterexample: `parseLooseDate` does not resolve month/day inputs with
an explicit year or an omitted time by its month rule — its month pattern
(which has no optional year and a mandatory `at HH:MM AM|PM`) does not match
them, and the parser falls through to the generic fallback (here: `none`). -/
theorem claim_C4_counterexample :
    parseLooseDate dpNone 480 "September 13, 2024 at 2:34 PM" 0 (some refClock) = none ∧
      mFind (trimL ("September 13, 2024 at 2:34 PM".data)) = none ∧
      parseLooseDate dpNone 480 "September 13" 0 (some refClock) = none ∧
      mFind (trimL ("September 13".data)) = none :=
  ⟨rfl, rfl, rfl, rfl⟩

/-- Scanning a candidate list with a function that ignores epoch candidates is
unaffected by removing them. -/
theorem findSome?_filter_epoch {α : Type} (f : Candidate → Option α) (cs : List Candidate)
    (hf : ∀ c, c.kind = CKind.epoch → f c = none) :
    (cs.filter (fun c => !(c.kind == CKind.epoch))).findSome? f = cs.findSome? f := by
  induction cs with
  | nil => rfl
  | cons c cs ih =>
    rw [List.filter_cons]
    by_cases hc : c.kind = CKind.epoch
    · have hb : (!(c.kind == CKind.epoch)) = false := by simp [hc]
      rw [hb]
      simp only [Bool.false_eq_true, if_false]
      rw [List.findSome?_cons, hf c hc]
      exact ih
    · have hb : (!(c.kind == CKind.epoch)) = true := by simp [hc]
      rw [hb]
      simp only [if_true]
      rw [List.findSome?_cons, List.findSome?_cons]
      cases hfc : f c with
      | some b => rfl
      | none => exact ih

theorem tierDatetime_filter (dp : String → Option Int) (cs : List Candidate) :
    tierDatetime dp (cs.filter (fun c => !(c.kind == CKind.epoch))) = tierDatetime dp cs :=
  findSome?_filter_epoch _ cs (fun c hc => by rw [hc]; rfl)

theorem tierText_filter (dp : String → Option Int) (off wall : Int) (cs : List Candidate) :
    tierText dp off wall (cs.filter (fun c => !(c.kind == CKind.epoch))) =
      tierText dp off wall cs :=
  findSome?_filter_epoch _ cs (fun c hc => by rw [hc]; rfl)

/-- C2 (amended): the resolver `extractPostDateISO` has exactly two candidate
tiers — `datetime`-kind candidates through the ISO normalizer first, then
`title`/`aria`/`text` candidates through the relative date parser in harvested
order — each stopping at its first success, with the OCR fallback only after
both.  There is no EpochSeconds tier: epoch candidates never influence the
result (removing them changes nothing), and whenever one of the two candidate
tiers succeeds, the result is that tier's first success and is independent of
the OCR capability (OCR is never consulted). -/
theorem claim_C2_tier_order :
    (∀ (dp : String → Option Int) (off wall : Int) (cs : List Candidate) (ocr : Option String),
      resolveTiers dp off wall (cs.filter (fun c => !(c.kind == CKind.epoch))) ocr =
        resolveTiers dp off wall cs ocr) ∧
    (∀ (dp : String → Option Int) (off wall : Int) (cs : List Candidate) (ocr : Option String),
      (tierDatetime dp cs).isSome = true →
      resolveTiers dp off wall cs ocr = tierDatetime dp cs) ∧
    (∀ (dp : String → Option Int) (off wall : Int) (cs : List Candidate) (ocr : Option String),
      tierDatetime dp cs = none → (tierText dp off wall cs).isSome = true →
      resolveTiers dp off wall cs ocr = tierText dp off wall cs) ∧
    (∀ (dp : String → Option Int) (off wall : Int) (cs : List Candidate)
        (ocr ocr2 : Option String),
      ((tierDatetime dp cs).isSome = true ∨ (tierText dp off wall cs).isSome = true) →
      resolveTiers dp off wall cs ocr = resolveTiers dp off wall cs ocr2) := by
  refine ⟨?_, ?_, ?_, ?_⟩
  · intro dp off wall cs ocr
    unfold resolveTiers
    rw [tierDatetime_filter, tierText_filter]
  · intro dp off wall cs ocr h
    obtain ⟨r, hr⟩ := Option.isSome_iff_exists.mp h
    simp [resolveTiers, hr]
  · intro dp off wall cs ocr hd h
    obtain ⟨r, hr⟩ := Option.isSome_iff_exists.mp h
    simp [resolveTiers, hd, hr]
  · intro dp off wall cs ocr ocr2 h
    rcases h with h | h
    · obtain ⟨r, hr⟩ := Option.isSome_iff_exists.mp h
      simp [resolveTiers, hr]
    · obtain ⟨r, hr⟩ := Option.isSome_iff_exists.mp h
      cases hd : tierDatetime dp cs with
      | some r2 => simp [resolveTiers, hd]
      | none => simp [resolveTiers, hd, hr]

/-- A generic-parser stub that recognizes one ISO-like string, as a test
harness would. -/
def dpIso : String → Option Int :=
  fun s => if s = "2025-09-13T04:00:00.000Z" then some 1757736000000 else none

def csWitness : List Candidate :=
  [⟨CKind.epoch, "1700000000"⟩, ⟨CKind.datetime, "2025-09-13T04:00:00.000Z"⟩,
   ⟨CKind.text, "junk"⟩]

theorem claim_C2_witness :
    resolveTiers dpIso 480 0 csWitness none = tierDatetime dpIso csWitness :=
  claim_C2_tier_order.2.1 dpIso 480 0 csWitness none rfl

/-- C2 counterexample: a candidate list holding one valid epoch-seconds
candidate (its value is parsed by the `data-utime` machinery to the instant
1700000000 × 1000) resolves to nothing — the resolver has no EpochSeconds
tier, so the claimed second tier does not exist. -/
theorem claim_C2_counterexample :
    extractPostDateISO dpNone 480 refClock [⟨CKind.epoch, "1700000000"⟩] none = none ∧
      dataUtimeMs "1700000000" = some 1700000000000 :=
  ⟨rfl, rfl⟩

/-- C5: the ISO normalizer's string path hands the value to the general
calendar-date parser and returns its instant, with absence (not an error) for
a non-finite/unparsable result; an epoch-seconds value (the `data-utime`
source) is multiplied by 1000 to a UTC instant, and a non-numeric attribute
yields absence. -/
theorem claim_C5_iso_normalizer :
    (∀ (dp : String → Option Int) (v : String), normalizeToISO dp v = dp v) ∧
    (∀ (s : String) (ut : Int), jsParseInt10 s = some ut → dataUtimeMs s = some (ut * 1000)) ∧
    (∀ s : String, jsParseInt10 s = none → dataUtimeMs s = none) := by
  refine ⟨?_, ?_, ?_⟩
  · intro dp v
    unfold normalizeToISO
    cases dp v <;> rfl
  · intro s ut h
    unfold dataUtimeMs
    rw [h]
    rfl
  · intro s h
    unfold dataUtimeMs
    rw [h]
    rfl

theorem claim_C5_witness : dataUtimeMs "1700000000" = some (1700000000 * 1000) :=
  claim_C5_iso_normalizer.2.1 "1700000000" 1700000000 rfl

theorem findSome?_eq_none_of {α β : Type} (f : α → Option β) :
    ∀ l : List α, (∀ x ∈ l, f x = none) → l.findSome? f = none := by
  intro l
  induction l with
  | nil => intro _; rfl
  | cons a l ih =>
    intro h
    rw [List.findSome?_cons, h a (by simp)]
    exact ih (fun x hx => h x (by simp [hx]))

/-- C7: no step of the resolution core throws — each returns a value or an
explicit absence — and when every tier fails (the OCR tier's unavailable /
erroring / timed-out capability included, modelled by its caught result being
`none`), the pipeline returns the explicit `none` sentinel, which is
structurally distinct from `some instant` for every instant — in particular
it is not the epoch-zero date. -/
theorem claim_C7_no_escape (dp : String → Option Int) (off wall : Int)
    (cs : List Candidate) (ocr : Option String)
    (hc : ∀ c ∈ cs.take 50,
      (c.kind = CKind.datetime → normalizeToISO dp c.value = none) ∧
      (isTextKind c.kind = true → parseLooseDate dp off c.value wall none = none))
    (ho : tierOcr dp off wall ocr = none) :
    extractPostDateISO dp off wall cs ocr = none ∧
      ∀ (v : Int) (tag : String), extractPostDateISO dp off wall cs ocr ≠ some (v, tag) := by
  have hd : tierDatetime dp (cs.take 50) = none := by
    unfold tierDatetime
    refine findSome?_eq_none_of _ _ ?_
    intro c hcm
    by_cases hk : c.kind = CKind.datetime
    · rw [if_pos hk, (hc c hcm).1 hk]
      rfl
    · rw [if_neg hk]
  have ht : tierText dp off wall (cs.take 50) = none := by
    unfold tierText
    refine findSome?_eq_none_of _ _ ?_
    intro c hcm
    by_cases hk : isTextKind c.kind = true
    · rw [if_pos hk, (hc c hcm).2 hk]
      rfl
    · rw [if_neg hk]
  have hnone : extractPostDateISO dp off wall cs ocr = none := by
    unfold extractPostDateISO resolveTiers
    rw [hd, ht]
    exact ho
  exact ⟨hnone, fun v tag h => by rw [hnone] at h; cases h⟩

theorem claim_C7_witness :
    extractPostDateISO dpNone 480 refClock [⟨CKind.text, "hello"⟩] none = none ∧
      ∀ (v : Int) (tag : String),
        extractPostDateISO dpNone 480 refClock [⟨CKind.text, "hello"⟩] none ≠ some (v, tag) :=
  claim_C7_no_escape dpNone 480 refClock [⟨CKind.text, "hello"⟩] none
    (by
      intro c hcm
      rw [show (([⟨CKind.text, "hello"⟩] : List Candidate).take 50) =
        [⟨CKind.text, "hello"⟩] from rfl] at hcm
      rw [List.mem_singleton] at hcm
      subst hcm
      exact ⟨fun h => absurd h (by decide), fun _ => rfl⟩)
    rfl

/-- C8: the resolver only ever considers the first 50 harvested candidates —
its result on any candidate list equals its result on the list truncated to
the cap, so an entry past the cap never influences resolution (in particular
for lists longer than 50 where only a later entry would resolve). -/
theorem claim_C8_harvest_cap (dp : String → Option Int) (off wall : Int)
    (cs : List Candidate) (ocr : Option String) :
    extractPostDateISO dp off wall cs ocr = extractPostDateISO dp off wall (cs.take 50) ocr := by
  unfold extractPostDateISO
  rw [List.take_take]
  norm_num

/-- C9: the engine is pure in its declared inputs — with an explicitly
injected reference clock (`opts.now`), `parseLooseDate` is independent of the
ambient wall clock, and resolving identical inputs twice yields bit-identical
results (instant and provenance tag). -/
theorem claim_C9_determinism :
    (∀ (dp : String → Option Int) (off : Int) (text : String) (t wall wall2 : Int),
      parseLooseDate dp off text wall (some t) = parseLooseDate dp off text wall2 (some t)) ∧
    (∀ (dp : String → Option Int) (off wall : Int) (cs : List Candidate)
        (ocr : Option String),
      extractPostDateISO dp off wall cs ocr = extractPostDateISO dp off wall cs ocr) :=
  ⟨fun _ _ _ _ _ _ => rfl, fun _ _ _ _ _ => rfl⟩

/-- Shifting an instant by whole minutes preserves its local seconds and
milliseconds fields. -/
theorem localFields_sub_min (off ms k : Int) :
    (localFields off (ms - k * 60000)).s = (localFields off ms).s ∧
      (localFields off (ms - k * 60000)).milli = (localFields off ms).milli := by
  unfold localFields localTod
  dsimp only
  constructor <;> omega

/-- An instant recomposed from whole days, hours and minutes has zero local
seconds and milliseconds. -/
theorem localFields_minute_aligned (off D H Mi : Int) :
    (localFields off (D * 86400000 + H * 3600000 + Mi * 60000 - off * 60000)).s = 0 ∧
      (localFields off (D * 86400000 + H * 3600000 + Mi * 60000 - off * 60000)).milli = 0 := by
  unfold localFields localTod
  dsimp only
  constructor <;> omega

/-- C10: instants produced by the `Yesterday at HH:MM` rule and the month/day
rule have zero seconds and milliseconds (`setHours(h, m, 0, 0)`), while the
`just now` rule and the short relative rule preserve the reference clock's
seconds and milliseconds exactly. -/
theorem claim_C10_subsecond :
    (∀ (dp : String → Option Int) (off : Int) (text : String) (wall now r : Int),
      text.data.isEmpty = false →
      hasJustNow (trimL text.data) = true →
      parseLooseDate dp off text wall (some now) = some r →
      (localFields off r).s = (localFields off now).s ∧
        (localFields off r).milli = (localFields off now).milli) ∧
    (∀ (dp : String → Option Int) (off : Int) (text : String) (wall now : Int)
        (n : Nat) (u : Char) (r : Int),
      text.data.isEmpty = false →
      hasJustNow (trimL text.data) = false →
      relFind ((trimL text.data).map Char.toLower) = some (n, u) →
      parseLooseDate dp off text wall (some now) = some r →
      (localFields off r).s = (localFields off now).s ∧
        (localFields off r).milli = (localFields off now).milli) ∧
    (∀ (dp : String → Option Int) (off : Int) (text : String) (wall now : Int)
        (h mi : Nat) (pm : Bool) (r : Int),
      text.data.isEmpty = false →
      hasJustNow (trimL text.data) = false →
      relFind ((trimL text.data).map Char.toLower) = none →
      yFind (trimL text.data) = some (h, mi, pm) →
      parseLooseDate dp off text wall (some now) = some r →
      (localFields off r).s = 0 ∧ (localFields off r).milli = 0) ∧
    (∀ (dp : String → Option Int) (off : Int) (text : String) (wall now : Int)
        (mon day h mi : Nat) (pm : Bool) (r : Int),
      text.data.isEmpty = false →
      hasJustNow (trimL text.data) = false →
      relFind ((trimL text.data).map Char.toLower) = none →
      yFind (trimL text.data) = none →
      mFind (trimL text.data) = some (mon, day, h, mi, pm) →
      parseLooseDate dp off text wall (some now) = some r →
      (localFields off r).s = 0 ∧ (localFields off r).milli = 0) := by
  refine ⟨?_, ?_, ?_, ?_⟩
  · intro dp off text wall now r hne hjn hp
    have he : parseLooseDate dp off text wall (some now) = some now := by
      simp only [parseLooseDate, hne, hjn, Bool.false_eq_true, if_false, if_true,
        Option.getD_some]
    rw [he] at hp
    cases hp
    exact ⟨rfl, rfl⟩
  · intro dp off text wall now n u r hne hjn hrel hp
    rw [parseLooseDate_rel dp off text wall now n u hne hjn hrel] at hp
    cases hp
    obtain ⟨k, hk⟩ : ∃ k : Int, (n : Int) * scaleMs u = k * 60000 := by
      unfold scaleMs
      split_ifs
      exacts [⟨(n : Int), by ring⟩, ⟨(n : Int) * 60, by ring⟩, ⟨(n : Int) * 1440, by ring⟩]
    rw [hk]
    exact localFields_sub_min off now k
  · intro dp off text wall now h mi pm r hne hjn hrel hy hp
    rw [parseLooseDate_yesterday dp off text wall now h mi pm hne hjn hrel hy] at hp
    cases hp
    exact localFields_minute_aligned off (localDays off now - 1) (conv12 (h : Int) pm)
      (mi : Int)
  · intro dp off text wall now mon day h mi pm r hne hjn hrel hyn hm hp
    rw [parseLooseDate_month dp off text wall now mon day h mi pm hne hjn hrel hyn hm] at hp
    cases hp
    exact localFields_minute_aligned off
      (daysFromCivil (localFields off now).y ((mon : Int) + 1) (day : Int))
      (conv12 (h : Int) pm) (mi : Int)

theorem claim_C10_witness :
    (localFields 480 1757663100000).s = 0 ∧ (localFields 480 1757663100000).milli = 0 :=
  claim_C10_subsecond.2.2.1 dpNone 480 "Yesterday at 3:45 PM" 0 refClock 3 45 true
    1757663100000 rfl rfl rfl rfl rfl

end FBPull
